import Mathlib

/-!
Verification development for the contextual-tips engine (src/tips.js).

The engine selects, once per frame, at most one tip per screen scope
(top / bottom) by walking an ordered per-platform catalog of tip names,
skipping tips recorded finished in a durable record, and invoking a
per-tip validator that returns INVALID, VALID or FINISH.  The embedding
below translates the source faithfully: fallible localStorage access is
an Except computation, the durable record is an association list, and
the mutable module state (storage, parse cache, per-scope exhaustion
flags, activeTips) is threaded explicitly.
-/

namespace Tips

/-- Validator verdicts (tips.js lines 20-22). -/
inductive ValidationResult
  | INVALID
  | VALID
  | FINISH
deriving DecidableEq, Repr

/-- The durable finished-tips record: a mapping tip name to the boolean
payload of its finished field.  A JS object update is modelled by a
shadowing prepend; `lookupFinished` takes the first matching entry. -/
abbrev Record := List (String × Bool)

/-- What `localStorage.getItem(LOCAL_STORAGE_KEY)` plus `JSON.parse` can
yield: the key is absent (getItem gives null, JSON.parse null gives null),
the stored string is corrupt (JSON.parse throws), or it parses to a
record object. -/
inductive StoredValue
  | absent
  | corrupt
  | record (r : Record)
deriving DecidableEq

/-- JS `!!(rec[tip] && rec[tip].finished)` over a parsed record. -/
def lookupFinished (r : Record) (tip : String) : Bool :=
  match r.find? (fun p => p.1 == tip) with
  | some p => p.2
  | none => false

/-- JS `rec[tip] = { finished: true }` (object key update, modelled by a
shadowing prepend). -/
def setFinished (r : Record) (tip : String) : Record := (tip, true) :: r

/-- `isTipFinished` (tips.js lines 82-88).  Uses the module cache when
loaded; otherwise parses storage.  When the key is absent the parse
yields null and the subsequent property access throws; a corrupt record
makes the parse itself throw: both surface as an error. -/
def isTipFinishedE (storage : StoredValue) (cache : Option Record) (tip : String) :
    Except Unit (Bool × Option Record) :=
  match cache with
  | some r => .ok (lookupFinished r tip, some r)
  | none =>
    match storage with
    | .record r => .ok (lookupFinished r tip, some r)
    | _ => .error ()

/-- `markTipFinished` (tips.js lines 90-95).  Reads storage fresh, sets
the entry, writes back and invalidates the cache; throws when the stored
value is absent (property write on null) or corrupt (parse throws). -/
def markTipFinishedE (storage : StoredValue) (tip : String) :
    Except Unit (StoredValue × Option Record) :=
  match storage with
  | .record r => .ok (.record (setFinished r tip), none)
  | _ => .error ()

/-- The lazy initialization in the system init (tips.js lines 246-248):
only an absent key is replaced with an empty record. -/
def initStorage : StoredValue → StoredValue
  | .absent => .record []
  | v => v

/-- The two screen scopes (tips.js catalog keys "top" and "bottom"). -/
inductive Scope
  | top
  | bottom
deriving DecidableEq, Repr

/-- The three platforms of the TIPS table. -/
inductive Platform
  | desktop
  | mobile
  | standalone
deriving DecidableEq, Repr

/-- Per-platform catalog: the ordered tip lists of the two scopes. -/
structure ScopeTips where
  top : List String
  bottom : List String
deriving DecidableEq

/-- The TIPS table (tips.js lines 26-64). -/
def TIPS : Platform → ScopeTips
  | .desktop =>
    { top := ["mirror_mode", "pen_mode", "video_share_mode", "mute_mode"],
      bottom :=
        ["look", "locomotion", "turning", "spawn_menu", "object_grab", "object_zoom",
         "object_scale", "freeze_gesture", "menu_hover", "object_recenter_button",
         "object_rotate_button", "object_scale_button", "object_pin", "invite",
         "pen_color", "pen_size"] }
  | .mobile =>
    { top := ["pen_mode", "video_share_mode", "freeze_mode", "mute_mode"],
      bottom :=
        ["look", "locomotion", "spawn_menu", "object_grab", "freeze_gesture",
         "object_recenter_button", "object_rotate_button", "object_scale_button",
         "object_pin", "invite"] }
  | .standalone => { top := [], bottom := [] }

/-- Tips that, when closed, clear only themselves (tips.js line 67). -/
def LOCAL_CLOSE_TIPS : List String := ["invite", "object_pin"]

/-- Device-capability signals sampled once at module load (tips.js 72-73). -/
structure Device where
  isMobile : Bool
  isMobileVR : Bool
deriving DecidableEq

/-- `tipPlatform` (tips.js lines 75-78). -/
def tipPlatform (d : Device) : Platform :=
  if d.isMobileVR then .standalone
  else if d.isMobile then .mobile
  else .desktop

/-- String interpolation name of a platform. -/
def platformName : Platform → String
  | .desktop => "desktop"
  | .mobile => "mobile"
  | .standalone => "standalone"

/-- `platformTips` (tips.js line 80). -/
def platformTips (d : Device) : ScopeTips := TIPS (tipPlatform d)

/-- The catalog list of one scope. -/
def scopeList (t : ScopeTips) : Scope → List String
  | .top => t.top
  | .bottom => t.bottom

/-- The optional durable activity-flags snapshot (window.APP.store.state.activity). -/
structure Activity where
  hasRotated : Bool
  hasScaled : Bool
  hasRecentered : Bool
  hasPinned : Bool
deriving DecidableEq

/-- One frame of validator context: the userinput snapshot (active capability
sets, truthiness of each action or device path, the characterAcceleration
vector), the scene flags, the media counter and the optional store handle. -/
structure Frame where
  activeSets : List String
  signal : String → Bool
  accel : Option (Int × Int)
  sceneIs : String → Bool
  mediaCount : Nat
  store : Option Activity

/-- The VALIDATORS table (tips.js lines 117-238), keyed by tip name.  Paths
are written by their leaf name; capability sets and scene flags by their
source names.  Names outside the table are never invoked by the engine
(every catalog name has an entry); the catch-all returns INVALID. -/
def VALIDATORS (isMobile : Bool) (tip : String) (f : Frame) : ValidationResult :=
  match tip with
  | "look" =>
    if f.activeSets.contains "cursorHoldingPen" then .INVALID
    else if f.signal (if isMobile then "touchCameraDelta" else "cameraDelta") then .FINISH
    else .VALID
  | "locomotion" =>
    if f.activeSets.contains "cursorHoldingPen" then .INVALID
    else
      match f.accel with
      | some a => if a.1 ≠ 0 ∨ a.2 ≠ 0 then .FINISH else .VALID
      | none => .VALID
  | "turning" =>
    if f.activeSets.contains "cursorHoldingPen" then .INVALID
    else if f.signal "snapRotateLeft" || f.signal "snapRotateRight" then .FINISH
    else .VALID
  | "spawn_menu" =>
    if f.activeSets.contains "cursorHoldingPen" then .INVALID
    else if f.mediaCount = 0 then .VALID
    else .FINISH
  | "freeze_gesture" =>
    if f.mediaCount = 0 then .INVALID
    else if f.activeSets.contains "cursorHoldingInteractable" then .INVALID
    else if f.activeSets.contains "cursorHoldingPen" then .INVALID
    else if f.sceneIs "frozen" && f.activeSets.contains "cursorHoveringOnInteractable" then .FINISH
    else if f.sceneIs "frozen" then .INVALID
    else .VALID
  | "menu_hover" =>
    if f.mediaCount = 0 then .INVALID
    else if !f.sceneIs "frozen" then .INVALID
    else if f.activeSets.contains "cursorHoldingPen" then .INVALID
    else if f.sceneIs "frozen" && f.activeSets.contains "cursorHoveringOnInteractable" then .FINISH
    else .VALID
  | "invite" =>
    if f.activeSets.contains "cursorHoldingPen" then .INVALID
    else if f.activeSets.contains "cursorHoldingCamera" then .INVALID
    else if f.activeSets.contains "cursorHoldingInteractable" then .INVALID
    else if f.sceneIs "copresent" then .FINISH
    else .VALID
  | "object_grab" =>
    if f.sceneIs "frozen" then .INVALID
    else if f.mediaCount = 0 then .INVALID
    else if f.activeSets.contains "cursorHoldingPen" then .INVALID
    else if f.activeSets.contains "cursorHoldingCamera" then .INVALID
    else if f.activeSets.contains "cursorHoldingInteractable" then .FINISH
    else .VALID
  | "object_rotate_button" =>
    if !f.sceneIs "frozen" then .INVALID
    else if f.mediaCount = 0 then .INVALID
    else
      match f.store with
      | some a => if a.hasRotated then .FINISH else .VALID
      | none => .VALID
  | "object_scale_button" =>
    if !f.sceneIs "frozen" then .INVALID
    else if f.mediaCount = 0 then .INVALID
    else
      match f.store with
      | some a => if a.hasScaled then .FINISH else .VALID
      | none => .VALID
  | "object_recenter_button" =>
    if !f.sceneIs "frozen" then .INVALID
    else if f.mediaCount = 0 then .INVALID
    else
      match f.store with
      | some a => if a.hasRecentered then .FINISH else .VALID
      | none => .VALID
  | "object_pin" =>
    if !f.sceneIs "frozen" then .INVALID
    else if f.mediaCount = 0 then .INVALID
    else
      match f.store with
      | some a => if a.hasPinned then .FINISH else .VALID
      | none => .VALID
  | "object_zoom" =>
    if f.sceneIs "frozen" then .INVALID
    else if f.activeSets.contains "cursorHoldingPen" then .INVALID
    else if f.activeSets.contains "cursorHoldingCamera" then .INVALID
    else if !f.activeSets.contains "cursorHoldingInteractable" then .INVALID
    else if f.signal "modDelta" then .FINISH
    else .VALID
  | "object_scale" =>
    if f.sceneIs "frozen" then .INVALID
    else if f.activeSets.contains "cursorHoldingPen" then .INVALID
    else if f.activeSets.contains "cursorHoldingCamera" then .INVALID
    else if !f.activeSets.contains "cursorHoldingInteractable" then .INVALID
    else if f.signal "scaleGrabbedGrabbable" then .FINISH
    else .VALID
  | "pen_color" =>
    if !f.activeSets.contains "cursorHoldingPen" then .INVALID
    else if f.signal "penNextColor" || f.signal "penPrevColor" then .FINISH
    else .VALID
  | "pen_size" =>
    if !f.activeSets.contains "cursorHoldingPen" then .INVALID
    else if f.signal "scalePenTip" then .FINISH
    else .VALID
  | "pen_mode" =>
    if !f.activeSets.contains "cursorHoldingPen" then .INVALID
    else .VALID
  | "freeze_mode" =>
    if f.sceneIs "frozen" then .VALID else .INVALID
  | "video_share_mode" =>
    if f.sceneIs "sharing_video" then .VALID else .INVALID
  | "mirror_mode" =>
    if f.sceneIs "mirroring" then .VALID else .INVALID
  | "mute_mode" =>
    if f.sceneIs "muted" then .VALID else .INVALID
  | _ => .INVALID

/-- The mutable state of the module plus the AFRAME system instance:
durable storage, the module-level parse cache and finishedScopes flags,
and the two activeTips entries.  An activeTips entry is
`none` while still JS undefined (never assigned), `some none` for an
assigned null selection and `some (some s)` for a selected qualified tip. -/
structure TipsState where
  storage : StoredValue
  cache : Option Record
  fsTop : Bool
  fsBottom : Bool
  atTop : Option (Option String)
  atBottom : Option (Option String)
deriving DecidableEq

/-- finishedScopes lookup for a scope. -/
def flagOf (st : TipsState) : Scope → Bool
  | .top => st.fsTop
  | .bottom => st.fsBottom

/-- activeTips lookup for a scope. -/
def selOf (st : TipsState) : Scope → Option (Option String)
  | .top => st.atTop
  | .bottom => st.atBottom

/-- Assign activeTips for one scope. -/
def setSel (st : TipsState) (s : Scope) (v : Option (Option String)) : TipsState :=
  match s with
  | .top => { st with atTop := v }
  | .bottom => { st with atBottom := v }

/-- Assign finishedScopes for one scope. -/
def setFlag (st : TipsState) (s : Scope) (b : Bool) : TipsState :=
  match s with
  | .top => { st with fsTop := b }
  | .bottom => { st with fsBottom := b }

/-- The qualified selection string (tips.js line 297). -/
def qualify (d : Device) (tip : String) : String :=
  platformName (tipPlatform d) ++ "." ++ tip

/-- The scan loop of `_performStep` (tips.js lines 285-302): walks the tip
list threading storage, cache and finishCount; stops at the first VALID
verdict of a non-finished tip; marks FINISH verdicts and keeps scanning. -/
def scanTips (isMobile : Bool) (f : Frame) :
    List String → StoredValue → Option Record → Nat →
    Except Unit (Option String × StoredValue × Option Record × Nat)
  | [], storage, cache, fc => .ok (none, storage, cache, fc)
  | tip :: rest, storage, cache, fc =>
    match isTipFinishedE storage cache tip with
    | .error e => .error e
    | .ok (true, cache1) => scanTips isMobile f rest storage cache1 (fc + 1)
    | .ok (false, cache1) =>
      match VALIDATORS isMobile tip f with
      | .FINISH =>
        match markTipFinishedE storage tip with
        | .error e => .error e
        | .ok (storage1, cache2) => scanTips isMobile f rest storage1 cache2 fc
      | .VALID => .ok (some tip, storage, cache1, fc)
      | .INVALID => scanTips isMobile f rest storage cache1 fc

/-- The body of `_performStep` after the exhaustion-flag check: run the
scan, store the (qualified) selection in activeTips, and set the scope
exhaustion flag when every tip was counted finished. -/
def performStepCore (d : Device) (f : Frame) (tips : List String) (scope : Scope)
    (st : TipsState) : Except Unit TipsState :=
  match scanTips d.isMobile f tips st.storage st.cache 0 with
  | .error e => .error e
  | .ok (chosen, storage1, cache1, fc) =>
    let st1 := { st with storage := storage1, cache := cache1 }
    let st2 := setSel st1 scope (some (chosen.map (qualify d)))
    .ok (if fc = tips.length then setFlag st2 scope true else st2)

/-- `_performStep` (tips.js lines 279-310): a flagged scope is skipped
wholesale, leaving state untouched. -/
def performStep (d : Device) (f : Frame) (tips : List String) (scope : Scope)
    (st : TipsState) : Except Unit TipsState :=
  if flagOf st scope then .ok st
  else performStepCore d f tips scope st

/-- The evaluation part of `tick` (tips.js lines 251-277), assuming both
lazily-resolved handles are available so the tick completes: run both
scopes, then emit tips_changed when either activeTips entry changed
(strict JS comparison; undefined and null differ).  The second component
is the number of emissions. -/
def tick (d : Device) (f : Frame) (st : TipsState) : Except Unit (TipsState × Nat) :=
  match performStep d f (platformTips d).top .top st with
  | .error e => .error e
  | .ok st1 =>
    match performStep d f (platformTips d).bottom .bottom st1 with
    | .error e => .error e
    | .ok st2 =>
      .ok (st2, if st.atTop ≠ st2.atTop ∨ st.atBottom ≠ st2.atBottom then 1 else 0)

/-- JS `"s".split(".")` on the character list: split at every dot. -/
def splitDotAux : List Char → List (List Char)
  | [] => [[]]
  | c :: rest =>
    let r := splitDotAux rest
    if c = '.' then [] :: r
    else
      match r with
      | [] => [[c]]
      | w :: ws => (c :: w) :: ws

/-- JS `fullTip.split(".")`. -/
def jsSplitDot (s : String) : List String := (splitDotAux s.data).map String.mk

/-- The marking loop of `handleTipClose` (tips.js lines 103-106). -/
def markList : List String → StoredValue → Option Record →
    Except Unit (StoredValue × Option Record)
  | [], storage, cache => .ok (storage, cache)
  | tip :: rest, storage, _cache =>
    match markTipFinishedE storage tip with
    | .error e => .error e
    | .ok (storage1, cache1) => markList rest storage1 cache1

/-- The list of tips cleared by `handleTipClose` (tips.js lines 98-101):
index 1 of the dot-split of the qualified name; a locally-dismissible
bare name clears only itself, anything else (including a missing index,
JS undefined) clears the whole scope catalog. -/
def closeList (d : Device) (fullTip : String) (scope : Scope) : List String :=
  match (jsSplitDot fullTip).get? 1 with
  | some bare =>
    if LOCAL_CLOSE_TIPS.contains bare then [bare] else scopeList (platformTips d) scope
  | none => scopeList (platformTips d) scope

/-- `handleTipClose` (tips.js lines 97-107). -/
def handleTipClose (d : Device) (fullTip : String) (scope : Scope) (st : TipsState) :
    Except Unit TipsState :=
  match markList (closeList d fullTip scope) st.storage st.cache with
  | .error e => .error e
  | .ok (storage1, cache1) => .ok { st with storage := storage1, cache := cache1 }

/-- `resetTips` (tips.js lines 109-115): empty record written, cache
invalidated, finishedScopes cleared.  The external store calls are opaque
collaborator calls; activeTips is not touched. -/
def resetTips (st : TipsState) : TipsState :=
  { st with storage := .record [], cache := none, fsTop := false, fsBottom := false }

/-- State right after the system init (tips.js lines 241-249): activeTips
is the empty object (both entries JS undefined), module cache unloaded,
no scope flagged, and an absent durable record initialized to empty. -/
def initState (v : StoredValue) : TipsState :=
  { storage := initStorage v, cache := none, fsTop := false, fsBottom := false,
    atTop := none, atBottom := none }

/-- Spec-side eligibility of a tip for selection: not recorded finished in
the record at scan start, and validating VALID on the current frame. -/
def eligible (isMobile : Bool) (f : Frame) (r : Record) (tip : String) : Bool :=
  !lookupFinished r tip && decide (VALIDATORS isMobile tip f = ValidationResult.VALID)

/-- Modelled from the spec: the full re-walk of a scope catalog that the
exhaustion flag is claimed to merely shortcut — identical to
`performStep` except that the flag is ignored. -/
def performStepFullWalk (d : Device) (f : Frame) (tips : List String) (scope : Scope)
    (st : TipsState) : Except Unit TipsState :=
  performStepCore d f tips scope st

/-- A desktop device (neither mobile nor mobile VR). -/
def devDesktop : Device := ⟨false, false⟩

/-- A standalone (mobile VR) device. -/
def devStandalone : Device := ⟨false, true⟩

/-- Concrete frame: the mouse camera moved this frame, nothing else. -/
def frameCamMoved : Frame :=
  { activeSets := [], signal := fun p => p == "cameraDelta", accel := none,
    sceneIs := fun _ => false, mediaCount := 0, store := none }

/-- Concrete frame: frozen scene with one shared object, store unavailable. -/
def frameFrozenObjects : Frame :=
  { activeSets := [], signal := fun _ => false, accel := none,
    sceneIs := fun s => s == "frozen", mediaCount := 1, store := none }

/-- Concrete frame: nothing active at all. -/
def frameIdle : Frame :=
  { activeSets := [], signal := fun _ => false, accel := none,
    sceneIs := fun _ => false, mediaCount := 0, store := none }

/-! ## Helper lemmas -/

@[simp] theorem selOf_setSel_same (st : TipsState) (s : Scope) (v : Option (Option String)) :
    selOf (setSel st s v) s = v := by
  cases s <;> rfl

theorem selOf_setSel_other (st : TipsState) (s s' : Scope) (v : Option (Option String))
    (h : s' ≠ s) : selOf (setSel st s v) s' = selOf st s' := by
  cases s <;> cases s' <;> first | rfl | exact absurd rfl h

@[simp] theorem selOf_setFlag (st : TipsState) (s s' : Scope) (b : Bool) :
    selOf (setFlag st s b) s' = selOf st s' := by
  cases s <;> cases s' <;> rfl

@[simp] theorem flagOf_setFlag_same (st : TipsState) (s : Scope) (b : Bool) :
    flagOf (setFlag st s b) s = b := by
  cases s <;> rfl

theorem flagOf_setFlag_other (st : TipsState) (s s' : Scope) (b : Bool)
    (h : s' ≠ s) : flagOf (setFlag st s b) s' = flagOf st s' := by
  cases s <;> cases s' <;> first | rfl | exact absurd rfl h

@[simp] theorem flagOf_setSel (st : TipsState) (s s' : Scope) (v : Option (Option String)) :
    flagOf (setSel st s v) s' = flagOf st s' := by
  cases s <;> cases s' <;> rfl

@[simp] theorem storage_setSel (st : TipsState) (s : Scope) (v : Option (Option String)) :
    (setSel st s v).storage = st.storage := by
  cases s <;> rfl

@[simp] theorem storage_setFlag (st : TipsState) (s : Scope) (b : Bool) :
    (setFlag st s b).storage = st.storage := by
  cases s <;> rfl

@[simp] theorem cache_setSel (st : TipsState) (s : Scope) (v : Option (Option String)) :
    (setSel st s v).cache = st.cache := by
  cases s <;> rfl

@[simp] theorem cache_setFlag (st : TipsState) (s : Scope) (b : Bool) :
    (setFlag st s b).cache = st.cache := by
  cases s <;> rfl

theorem lookupFinished_setFinished (r : Record) (tip t : String) :
    lookupFinished (setFinished r tip) t = ((tip == t) || lookupFinished r t) := by
  by_cases h : (tip == t) = true
  · simp [setFinished, lookupFinished, List.find?, h]
  · simp only [Bool.not_eq_true] at h
    simp [setFinished, lookupFinished, List.find?, h]

/-- The later record extends the earlier: finished marks are preserved. -/
def recExt (a b : Record) : Prop :=
  ∀ t, lookupFinished a t = true → lookupFinished b t = true

/-- Every mark of the later record is either an old mark or the trace of
a FINISH verdict on the current frame. -/
def recNew (m : Bool) (f : Frame) (a b : Record) : Prop :=
  ∀ t, lookupFinished b t = true →
    lookupFinished a t = true ∨ VALIDATORS m t f = ValidationResult.FINISH

theorem recExt_refl (r : Record) : recExt r r := fun _ h => h

theorem recExt_trans {a b c : Record} (h1 : recExt a b) (h2 : recExt b c) : recExt a c :=
  fun t h => h2 t (h1 t h)

theorem recExt_setFinished (r : Record) (tip : String) : recExt r (setFinished r tip) := by
  intro t h
  rw [lookupFinished_setFinished, h, Bool.or_true]

theorem eligible_false_of_finished {m : Bool} {f : Frame} {r : Record} {tip : String}
    (h : lookupFinished r tip = true) : eligible m f r tip = false := by
  simp [eligible, h]

theorem eligible_false_of_not_valid {m : Bool} {f : Frame} {r : Record} {tip : String}
    (h : VALIDATORS m tip f ≠ ValidationResult.VALID) : eligible m f r tip = false := by
  simp [eligible, h]

theorem eligible_lookup_false {m : Bool} {f : Frame} {r : Record} {tip : String}
    (h : eligible m f r tip = true) : lookupFinished r tip = false := by
  simp only [eligible, Bool.and_eq_true, Bool.not_eq_true'] at h
  exact h.1

theorem eligible_valid {m : Bool} {f : Frame} {r : Record} {tip : String}
    (h : eligible m f r tip = true) : VALIDATORS m tip f = ValidationResult.VALID := by
  simp only [eligible, Bool.and_eq_true, decide_eq_true_eq] at h
  exact h.2

theorem find?_eligible_none_of_all_finished {m : Bool} {f : Frame} {r : Record}
    {tips : List String} (h : ∀ t ∈ tips, lookupFinished r t = true) :
    tips.find? (eligible m f r) = none := by
  rw [List.find?_eq_none]
  intro t ht
  simp [eligible_false_of_finished (h t ht)]

/-- The scan computes the first eligible tip of the catalog, judged by the
record at scan start: the marks written along the way (FINISH verdicts)
never change the outcome.  Also characterizes the final record, cache and
finish count. -/
theorem scanTips_spec (m : Bool) (f : Frame) (r : Record) :
    ∀ (tips : List String) (r1 : Record) (cache : Option Record) (fc : Nat),
    (cache = none ∨ cache = some r1) → recExt r r1 → recNew m f r r1 →
    ∃ r2 cache2 fc2,
      scanTips m f tips (.record r1) cache fc =
        .ok (tips.find? (eligible m f r), .record r2, cache2, fc2) ∧
      (cache2 = none ∨ cache2 = some r2) ∧
      recExt r r2 ∧ recNew m f r r2 ∧ recExt r1 r2 ∧
      fc2 ≤ fc + tips.length ∧
      (fc2 = fc + tips.length →
        tips.find? (eligible m f r) = none ∧ ∀ t ∈ tips, lookupFinished r2 t = true) := by
  intro tips
  induction tips with
  | nil =>
    intro r1 cache fc hc hext hnew
    refine ⟨r1, cache, fc, by simp [scanTips], hc, hext, hnew, recExt_refl r1, by simp, ?_⟩
    intro _
    exact ⟨by simp, by simp⟩
  | cons tip rest ih =>
    intro r1 cache fc hc hext hnew
    have hread : isTipFinishedE (.record r1) cache tip = .ok (lookupFinished r1 tip, some r1) := by
      rcases hc with h | h <;> simp [isTipFinishedE, h]
    by_cases hfin : lookupFinished r1 tip = true
    · -- the tip is already recorded finished: counted and skipped
      have helig : eligible m f r tip = false := by
        rcases hnew tip hfin with h | h
        · exact eligible_false_of_finished h
        · exact eligible_false_of_not_valid (by simp [h])
      obtain ⟨r2, cache2, fc2, heq, hc2, hext2, hnew2, hext12, hle, hall⟩ :=
        ih r1 (some r1) (fc + 1) (Or.inr rfl) hext hnew
      refine ⟨r2, cache2, fc2, ?_, hc2, hext2, hnew2, hext12, ?_, ?_⟩
      · rw [show scanTips m f (tip :: rest) (.record r1) cache fc
            = scanTips m f rest (.record r1) (some r1) (fc + 1) by
          simp [scanTips, hread, hfin]]
        rw [heq]
        simp [List.find?_cons, helig]
      · simp only [List.length_cons]
        omega
      · intro hfc2
        simp only [List.length_cons] at hfc2
        obtain ⟨hfind, hallr⟩ := hall (by omega)
        refine ⟨by simp [List.find?_cons, helig, hfind], ?_⟩
        intro t ht
        rcases List.mem_cons.mp ht with rfl | ht
        · exact hext12 t hfin
        · exact hallr t ht
    · -- not finished: the validator runs
      have hfin' : lookupFinished r1 tip = false := by
        simpa using hfin
      have hrfin : lookupFinished r tip = false := by
        by_contra h
        simp only [Bool.not_eq_false] at h
        exact hfin (hext tip h)
      cases hv : VALIDATORS m tip f with
      | FINISH =>
        have helig : eligible m f r tip = false :=
          eligible_false_of_not_valid (by simp [hv])
        have hext1 : recExt r (setFinished r1 tip) :=
          recExt_trans hext (recExt_setFinished r1 tip)
        have hnew1 : recNew m f r (setFinished r1 tip) := by
          intro t ht
          rw [lookupFinished_setFinished] at ht
          rcases Bool.or_eq_true_iff.mp ht with h | h
          · right
            have hte : tip = t := by simpa using h
            rw [← hte]
            exact hv
          · exact hnew t h
        obtain ⟨r2, cache2, fc2, heq, hc2, hext2, hnew2, hext12, hle, hall⟩ :=
          ih (setFinished r1 tip) none fc (Or.inl rfl) hext1 hnew1
        refine ⟨r2, cache2, fc2, ?_, hc2, hext2, hnew2,
          recExt_trans (recExt_setFinished r1 tip) hext12, ?_, ?_⟩
        · rw [show scanTips m f (tip :: rest) (.record r1) cache fc
              = scanTips m f rest (.record (setFinished r1 tip)) none fc by
            simp [scanTips, hread, hfin', hv, markTipFinishedE]]
          rw [heq]
          simp [List.find?_cons, helig]
        · simp only [List.length_cons]
          omega
        · intro hfc2
          simp only [List.length_cons] at hfc2
          omega
      | VALID =>
        have helig : eligible m f r tip = true := by
          simp [eligible, hrfin, hv]
        refine ⟨r1, some r1, fc, ?_, Or.inr rfl, hext, hnew, recExt_refl r1, by simp, ?_⟩
        · rw [show scanTips m f (tip :: rest) (.record r1) cache fc
              = .ok (some tip, .record r1, some r1, fc) by
            simp [scanTips, hread, hfin', hv]]
          simp [List.find?_cons, helig]
        · intro hfc
          simp only [List.length_cons] at hfc
          omega
      | INVALID =>
        have helig : eligible m f r tip = false :=
          eligible_false_of_not_valid (by simp [hv])
        obtain ⟨r2, cache2, fc2, heq, hc2, hext2, hnew2, hext12, hle, hall⟩ :=
          ih r1 (some r1) fc (Or.inr rfl) hext hnew
        refine ⟨r2, cache2, fc2, ?_, hc2, hext2, hnew2, hext12, ?_, ?_⟩
        · rw [show scanTips m f (tip :: rest) (.record r1) cache fc
              = scanTips m f rest (.record r1) (some r1) fc by
            simp [scanTips, hread, hfin', hv]]
          rw [heq]
          simp [List.find?_cons, helig]
        · simp only [List.length_cons]
          omega
        · intro hfc2
          simp only [List.length_cons] at hfc2
          omega

theorem qualify_inj (d : Device) (a b : String) (h : qualify d a = qualify d b) : a = b := by
  unfold qualify at h
  have h2 := congrArg String.data h
  simp [String.data_append] at h2
  exact String.ext h2

@[simp] theorem selOf_update_sc (st : TipsState) (v : StoredValue) (c : Option Record)
    (s : Scope) : selOf { st with storage := v, cache := c } s = selOf st s := by
  cases s <;> rfl

@[simp] theorem flagOf_update_sc (st : TipsState) (v : StoredValue) (c : Option Record)
    (s : Scope) : flagOf { st with storage := v, cache := c } s = flagOf st s := by
  cases s <;> rfl

/-- Full characterization of `performStepCore` over a well-formed record. -/
theorem performStepCore_ok (d : Device) (f : Frame) (tips : List String) (scope : Scope)
    (st : TipsState) (r : Record)
    (hs : st.storage = .record r) (hc : st.cache = none ∨ st.cache = some r) :
    ∃ st1 r1, performStepCore d f tips scope st = .ok st1 ∧
      st1.storage = .record r1 ∧ (st1.cache = none ∨ st1.cache = some r1) ∧
      recExt r r1 ∧ recNew d.isMobile f r r1 ∧
      selOf st1 scope = some ((tips.find? (eligible d.isMobile f r)).map (qualify d)) ∧
      (∀ s, s ≠ scope → selOf st1 s = selOf st s) ∧
      (∀ s, s ≠ scope → flagOf st1 s = flagOf st s) ∧
      (flagOf st1 scope = true → flagOf st scope = true ∨
        (tips.find? (eligible d.isMobile f r) = none ∧
         ∀ t ∈ tips, lookupFinished r1 t = true)) := by
  obtain ⟨r2, cache2, fc2, heq, hc2, hext2, hnew2, _, _, hall⟩ :=
    scanTips_spec d.isMobile f r tips r st.cache 0 hc (recExt_refl r) (fun t h => Or.inl h)
  rw [← hs] at heq
  have hcinv : ({ st with storage := StoredValue.record r2, cache := cache2 } : TipsState).cache
      = none ∨ ({ st with storage := StoredValue.record r2, cache := cache2 } : TipsState).cache
      = some r2 := by
    rcases hc2 with h | h
    · exact Or.inl (by simp [h])
    · exact Or.inr (by simp [h])
  by_cases hfc : fc2 = tips.length
  · obtain ⟨hfind, hallfin⟩ := hall (by omega)
    refine ⟨setFlag (setSel { st with storage := .record r2, cache := cache2 } scope
        (some ((tips.find? (eligible d.isMobile f r)).map (qualify d)))) scope true,
      r2, ?_, ?_, ?_, hext2, hnew2, ?_, ?_, ?_, ?_⟩
    · simp only [performStepCore, heq]
      rw [if_pos hfc]
    · simp
    · simpa using hcinv
    · simp
    · intro s hne
      rw [selOf_setFlag, selOf_setSel_other _ _ _ _ hne, selOf_update_sc]
    · intro s hne
      rw [flagOf_setFlag_other _ _ _ _ hne, flagOf_setSel, flagOf_update_sc]
    · intro _
      exact Or.inr ⟨hfind, hallfin⟩
  · refine ⟨setSel { st with storage := .record r2, cache := cache2 } scope
        (some ((tips.find? (eligible d.isMobile f r)).map (qualify d))),
      r2, ?_, ?_, ?_, hext2, hnew2, ?_, ?_, ?_, ?_⟩
    · simp only [performStepCore, heq]
      rw [if_neg hfc]
    · simp
    · simpa using hcinv
    · simp
    · intro s hne
      rw [selOf_setSel_other _ _ _ _ hne, selOf_update_sc]
    · intro s hne
      rw [flagOf_setSel, flagOf_update_sc]
    · intro h
      rw [flagOf_setSel, flagOf_update_sc] at h
      exact Or.inl h

/-- Characterization of `performStep` (flag check included), under the
assumption that a set flag really means the scope is exhausted and its
last stored selection was the null selection. -/
theorem performStep_master (d : Device) (f : Frame) (tips : List String) (scope : Scope)
    (st : TipsState) (r : Record)
    (hs : st.storage = .record r) (hc : st.cache = none ∨ st.cache = some r)
    (hflag : flagOf st scope = true →
      (∀ t ∈ tips, lookupFinished r t = true) ∧ selOf st scope = some none) :
    ∃ st1 r1, performStep d f tips scope st = .ok st1 ∧
      st1.storage = .record r1 ∧ (st1.cache = none ∨ st1.cache = some r1) ∧
      recExt r r1 ∧ recNew d.isMobile f r r1 ∧
      selOf st1 scope = some ((tips.find? (eligible d.isMobile f r)).map (qualify d)) ∧
      (∀ s, s ≠ scope → selOf st1 s = selOf st s) ∧
      (∀ s, s ≠ scope → flagOf st1 s = flagOf st s) ∧
      (flagOf st1 scope = true →
        (∀ t ∈ tips, lookupFinished r1 t = true) ∧ selOf st1 scope = some none) := by
  by_cases hf : flagOf st scope = true
  · obtain ⟨hallfin, hsel⟩ := hflag hf
    have hfind : tips.find? (eligible d.isMobile f r) = none :=
      find?_eligible_none_of_all_finished hallfin
    refine ⟨st, r, ?_, hs, hc, recExt_refl r, fun t h => Or.inl h, ?_,
      fun s _ => rfl, fun s _ => rfl, fun _ => ⟨hallfin, hsel⟩⟩
    · simp [performStep, hf]
    · rw [hsel, hfind]
      rfl
  · obtain ⟨st1, r1, heq, hs1, hc1, hext1, hnew1, hsel1, hselo1, hflago1, hflag1⟩ :=
      performStepCore_ok d f tips scope st r hs hc
    refine ⟨st1, r1, ?_, hs1, hc1, hext1, hnew1, hsel1, hselo1, hflago1, ?_⟩
    · simpa [performStep, hf] using heq
    · intro h
      rcases hflag1 h with h' | ⟨hfind, hallfin⟩
      · exact absurd h' hf
      · refine ⟨hallfin, ?_⟩
        rw [hsel1, hfind]
        rfl

/-- The reachable-state invariant of the engine: storage is a well-formed
record, the cache is empty or consistent, and a set exhaustion flag means
every tip of that scope catalog is finished and the stored selection of
that scope is the (assigned) null selection. -/
def goodState (d : Device) (st : TipsState) : Prop :=
  ∃ r, st.storage = .record r ∧ (st.cache = none ∨ st.cache = some r) ∧
    ∀ s, flagOf st s = true →
      (∀ t ∈ scopeList (platformTips d) s, lookupFinished r t = true) ∧
      selOf st s = some none

/-- Master lemma for one completed tick from a good state: the tick
succeeds, emits exactly when an activeTips entry changed, preserves the
invariant, only extends the finished record, and every stored selection
is either null or a qualified tip that was unfinished at its scan. -/
theorem tick_master (d : Device) (f : Frame) (st : TipsState) (r : Record)
    (hg : goodState d st) (hr : st.storage = .record r) :
    ∃ st2 r2, tick d f st =
        .ok (st2, if st.atTop ≠ st2.atTop ∨ st.atBottom ≠ st2.atBottom then 1 else 0) ∧
      goodState d st2 ∧ st2.storage = .record r2 ∧ recExt r r2 ∧
      ∀ s, selOf st2 s = some none ∨
        ∃ u rm, selOf st2 s = some (some (qualify d u)) ∧
          lookupFinished rm u = false ∧ recExt r rm := by
  obtain ⟨r0, hs0, hc0, hflags⟩ := hg
  have hrr : r0 = r := by
    rw [hr] at hs0
    exact (StoredValue.record.injEq r0 r).mp hs0.symm
  subst hrr
  obtain ⟨st1, r1, h1eq, hs1, hc1, hext1, hnew1, hsel1, hselo1, hflago1, hflag1⟩ :=
    performStep_master d f (platformTips d).top .top st r0 hs0 hc0 (hflags .top)
  have hbot : flagOf st1 .bottom = true →
      (∀ t ∈ (platformTips d).bottom, lookupFinished r1 t = true) ∧
      selOf st1 .bottom = some none := by
    intro h
    rw [hflago1 .bottom (by simp)] at h
    obtain ⟨hall, hsel⟩ := hflags .bottom h
    exact ⟨fun t ht => hext1 t (hall t ht), by rw [hselo1 .bottom (by simp), ← hsel]⟩
  obtain ⟨st2, r2, h2eq, hs2, hc2, hext2, hnew2, hsel2, hselo2, hflago2, hflag2⟩ :=
    performStep_master d f (platformTips d).bottom .bottom st1 r1 hs1 hc1 hbot
  refine ⟨st2, r2, ?_, ?_, hs2, recExt_trans hext1 hext2, ?_⟩
  · simp [tick, h1eq, h2eq]
  · refine ⟨r2, hs2, hc2, ?_⟩
    intro s hfs
    cases s with
    | top =>
      rw [hflago2 .top (by simp)] at hfs
      obtain ⟨hall, hsel⟩ := hflag1 hfs
      refine ⟨fun t ht => hext2 t (hall t ht), ?_⟩
      rw [hselo2 .top (by simp), hsel]
    | bottom =>
      exact hflag2 hfs
  · intro s
    cases s with
    | top =>
      rw [hselo2 .top (by simp), hsel1]
      cases hfind : (platformTips d).top.find? (eligible d.isMobile f r0) with
      | none => exact Or.inl rfl
      | some u =>
        refine Or.inr ⟨u, r0, rfl, ?_, recExt_refl r0⟩
        exact eligible_lookup_false (List.find?_some hfind)
    | bottom =>
      rw [hsel2]
      cases hfind : (platformTips d).bottom.find? (eligible d.isMobile f r1) with
      | none => exact Or.inl rfl
      | some u =>
        refine Or.inr ⟨u, r1, rfl, ?_, hext1⟩
        exact eligible_lookup_false (List.find?_some hfind)

/-- Characterization of the `handleTipClose` marking loop. -/
theorem markList_ok :
    ∀ (tips : List String) (r : Record) (cache : Option Record),
    ∃ r1 cache1, markList tips (.record r) cache = .ok (.record r1, cache1) ∧
      (∀ t, lookupFinished r1 t = (tips.contains t || lookupFinished r t)) ∧
      (cache1 = none ∨ (cache1 = cache ∧ r1 = r)) := by
  intro tips
  induction tips with
  | nil =>
    intro r cache
    exact ⟨r, cache, by simp [markList], fun t => by simp, Or.inr ⟨rfl, rfl⟩⟩
  | cons tip rest ih =>
    intro r cache
    obtain ⟨r1, cache1, heq, hlook, hcache⟩ := ih (setFinished r tip) none
    refine ⟨r1, cache1, ?_, ?_, ?_⟩
    · simp [markList, markTipFinishedE, heq]
    · intro t
      rw [hlook t, lookupFinished_setFinished]
      by_cases h : tip = t
      · subst h
        simp [List.contains_cons]
      · have h1 : (tip == t) = false := by simp [h]
        have h2 : (decide (t = tip)) = false := by simp [Ne.symm h]
        simp [List.contains_cons, h1, h2]
    · rcases hcache with h | ⟨h, _⟩
      · exact Or.inl h
      · exact Or.inl h

/-- Characterization of `handleTipClose` over a well-formed record: it
marks exactly the close list, touches nothing else. -/
theorem handleTipClose_ok (d : Device) (fullTip : String) (scope : Scope)
    (st : TipsState) (r : Record)
    (hs : st.storage = .record r) (hc : st.cache = none ∨ st.cache = some r) :
    ∃ st1 r1, handleTipClose d fullTip scope st = .ok st1 ∧
      st1.storage = .record r1 ∧ (st1.cache = none ∨ st1.cache = some r1) ∧
      (∀ t, lookupFinished r1 t =
        ((closeList d fullTip scope).contains t || lookupFinished r t)) ∧
      st1.fsTop = st.fsTop ∧ st1.fsBottom = st.fsBottom ∧
      st1.atTop = st.atTop ∧ st1.atBottom = st.atBottom := by
  obtain ⟨r1, cache1, heq, hlook, hcache⟩ := markList_ok (closeList d fullTip scope) r st.cache
  refine ⟨{ st with storage := .record r1, cache := cache1 }, r1, ?_, by simp, ?_, hlook,
    rfl, rfl, rfl, rfl⟩
  · rw [handleTipClose, hs, heq]
  · rcases hcache with h | ⟨h1, h2⟩
    · exact Or.inl (by simp [h])
    · subst h1 h2
      rcases hc with h | h
      · exact Or.inl (by simp [h])
      · exact Or.inr (by simp [h])

theorem find?_append_none {α : Type} (p : α → Bool) {l1 : List α} (l2 : List α)
    (h : l1.find? p = none) : (l1 ++ l2).find? p = l2.find? p := by
  simp [List.find?_append, h]

/-- When the scan reaches a tip whose validator says FINISH (no earlier tip
was selected), the final record marks that tip finished, and the scan still
computes the first eligible tip of the whole list. -/
theorem scanTips_marks_finish (m : Bool) (f : Frame) (r : Record) (a : String)
    (ha2 : VALIDATORS m a f = ValidationResult.FINISH) :
    ∀ (pre post : List String) (r1 : Record) (cache : Option Record) (fc : Nat),
    (cache = none ∨ cache = some r1) → recExt r r1 → recNew m f r r1 →
    pre.find? (eligible m f r) = none →
    ∃ r2 cache2 fc2,
      scanTips m f (pre ++ a :: post) (.record r1) cache fc =
        .ok ((pre ++ a :: post).find? (eligible m f r), .record r2, cache2, fc2) ∧
      lookupFinished r2 a = true := by
  have heliga : eligible m f r a = false :=
    eligible_false_of_not_valid (by simp [ha2])
  intro pre
  induction pre with
  | nil =>
    intro post r1 cache fc hc hext hnew _
    have hread : isTipFinishedE (.record r1) cache a = .ok (lookupFinished r1 a, some r1) := by
      rcases hc with h | h <;> simp [isTipFinishedE, h]
    by_cases hfa : lookupFinished r1 a = true
    · obtain ⟨r2, cache2, fc2, heq, _, _, _, hext12, _, _⟩ :=
        scanTips_spec m f r post r1 (some r1) (fc + 1) (Or.inr rfl) hext hnew
      refine ⟨r2, cache2, fc2, ?_, hext12 a hfa⟩
      rw [show ([] ++ a :: post : List String) = a :: post from rfl,
        show scanTips m f (a :: post) (.record r1) cache fc
          = scanTips m f post (.record r1) (some r1) (fc + 1) by
        simp [scanTips, hread, hfa]]
      rw [heq]
      simp [List.find?_cons, heliga]
    · have hfa' : lookupFinished r1 a = false := by simpa using hfa
      have hext1 : recExt r (setFinished r1 a) :=
        recExt_trans hext (recExt_setFinished r1 a)
      have hnew1 : recNew m f r (setFinished r1 a) := by
        intro t ht
        rw [lookupFinished_setFinished] at ht
        rcases Bool.or_eq_true_iff.mp ht with h | h
        · right
          have hte : a = t := by simpa using h
          rw [← hte]
          exact ha2
        · exact hnew t h
      obtain ⟨r2, cache2, fc2, heq, _, _, _, hext12, _, _⟩ :=
        scanTips_spec m f r post (setFinished r1 a) none fc (Or.inl rfl) hext1 hnew1
      refine ⟨r2, cache2, fc2, ?_, ?_⟩
      · rw [show ([] ++ a :: post : List String) = a :: post from rfl,
          show scanTips m f (a :: post) (.record r1) cache fc
            = scanTips m f post (.record (setFinished r1 a)) none fc by
          simp [scanTips, hread, hfa', ha2, markTipFinishedE]]
        rw [heq]
        simp [List.find?_cons, heliga]
      · refine hext12 a ?_
        rw [lookupFinished_setFinished]
        simp
  | cons p pre ih =>
    intro post r1 cache fc hc hext hnew hpre
    have hep : eligible m f r p = false := by
      by_contra hx
      rw [Bool.not_eq_false] at hx
      simp [List.find?_cons, hx] at hpre
    have hpre' : pre.find? (eligible m f r) = none := by
      simpa [List.find?_cons, hep] using hpre
    have hread : isTipFinishedE (.record r1) cache p = .ok (lookupFinished r1 p, some r1) := by
      rcases hc with h | h <;> simp [isTipFinishedE, h]
    by_cases hfp : lookupFinished r1 p = true
    · obtain ⟨r2, cache2, fc2, heq, hmark⟩ :=
        ih post r1 (some r1) (fc + 1) (Or.inr rfl) hext hnew hpre'
      refine ⟨r2, cache2, fc2, ?_, hmark⟩
      rw [show ((p :: pre) ++ a :: post : List String) = p :: (pre ++ a :: post) from rfl,
        show scanTips m f (p :: (pre ++ a :: post)) (.record r1) cache fc
          = scanTips m f (pre ++ a :: post) (.record r1) (some r1) (fc + 1) by
        simp [scanTips, hread, hfp]]
      rw [heq]
      simp [List.find?_cons, hep]
    · have hfp' : lookupFinished r1 p = false := by simpa using hfp
      have hrp : lookupFinished r p = false := by
        by_contra h
        simp only [Bool.not_eq_false] at h
        exact hfp (hext p h)
      have hnv : VALIDATORS m p f ≠ ValidationResult.VALID := by
        intro hv
        rw [eligible, hrp, hv] at hep
        simp at hep
      cases hv : VALIDATORS m p f with
      | VALID => exact absurd hv hnv
      | FINISH =>
        have hext1 : recExt r (setFinished r1 p) :=
          recExt_trans hext (recExt_setFinished r1 p)
        have hnew1 : recNew m f r (setFinished r1 p) := by
          intro t ht
          rw [lookupFinished_setFinished] at ht
          rcases Bool.or_eq_true_iff.mp ht with h | h
          · right
            have hte : p = t := by simpa using h
            rw [← hte]
            exact hv
          · exact hnew t h
        obtain ⟨r2, cache2, fc2, heq, hmark⟩ :=
          ih post (setFinished r1 p) none fc (Or.inl rfl) hext1 hnew1 hpre'
        refine ⟨r2, cache2, fc2, ?_, hmark⟩
        rw [show ((p :: pre) ++ a :: post : List String) = p :: (pre ++ a :: post) from rfl,
          show scanTips m f (p :: (pre ++ a :: post)) (.record r1) cache fc
            = scanTips m f (pre ++ a :: post) (.record (setFinished r1 p)) none fc by
          simp [scanTips, hread, hfp', hv, markTipFinishedE]]
        rw [heq]
        simp [List.find?_cons, hep]
      | INVALID =>
        obtain ⟨r2, cache2, fc2, heq, hmark⟩ :=
          ih post r1 (some r1) fc (Or.inr rfl) hext hnew hpre'
        refine ⟨r2, cache2, fc2, ?_, hmark⟩
        rw [show ((p :: pre) ++ a :: post : List String) = p :: (pre ++ a :: post) from rfl,
          show scanTips m f (p :: (pre ++ a :: post)) (.record r1) cache fc
            = scanTips m f (pre ++ a :: post) (.record r1) (some r1) fc by
          simp [scanTips, hread, hfp', hv]]
        rw [heq]
        simp [List.find?_cons, hep]

/-! ## Claim theorems -/

/-- C1: on every completed scope evaluation over a well-formed record (a
set exhaustion flag implying the scope is genuinely exhausted with a null
stored selection), the evaluator selects at most one tip, namely exactly
the first tip of the catalog order that is not already recorded finished
and whose validator returns VALID on the current frame; tips whose
validator returns INVALID or FINISH are passed over. -/
theorem tips_c1 (d : Device) (f : Frame) (tips : List String) (scope : Scope)
    (st : TipsState) (r : Record)
    (hs : st.storage = .record r) (hc : st.cache = none ∨ st.cache = some r)
    (hflag : flagOf st scope = true →
      (∀ t ∈ tips, lookupFinished r t = true) ∧ selOf st scope = some none) :
    ∃ st1, performStep d f tips scope st = .ok st1 ∧
      selOf st1 scope = some ((tips.find? (eligible d.isMobile f r)).map (qualify d)) := by
  obtain ⟨st1, r1, heq, _, _, _, _, hsel, _⟩ :=
    performStep_master d f tips scope st r hs hc hflag
  exact ⟨st1, heq, hsel⟩

/-- C1 witness: on a desktop bottom-scope scan from a fresh state where the
camera just moved, the selection is the first VALID tip, locomotion (look
returns FINISH and is passed over). -/
theorem tips_c1_witness :
    ∃ st1, performStep devDesktop frameCamMoved (platformTips devDesktop).bottom .bottom
        (initState .absent) = .ok st1 ∧
      selOf st1 .bottom = some (some "desktop.locomotion") := by
  obtain ⟨st1, heq, hsel⟩ := tips_c1 devDesktop frameCamMoved (platformTips devDesktop).bottom
    .bottom (initState .absent) [] rfl (Or.inl rfl) (fun h => absurd h (by decide))
  refine ⟨st1, heq, ?_⟩
  rw [hsel]
  decide

/-- C4 counterexample: with the durable record absent and the cache not
loaded, the finished query throws (JSON.parse of null yields null and the
property access fails), and marking a tip finished throws as well — the
claim that these operations never fail and treat a missing record as
empty is false on the code. -/
theorem tips_c4_counterexample :
    isTipFinishedE .absent none "invite" = .error () ∧
    markTipFinishedE .absent "invite" = .error () :=
  ⟨rfl, rfl⟩

/-- C4 amended: against a present well-formed record the finished query
never fails and returns the recorded flag (false for an absent entry) and
marking succeeds; an absent record is replaced by an empty one only by
the system init (after which the query returns false); an absent or
corrupt record makes both the query and the marking operation throw. -/
theorem tips_c4_amended (r : Record) (tip : String) (cache : Option Record)
    (hc : cache = none ∨ cache = some r) :
    isTipFinishedE (.record r) cache tip = .ok (lookupFinished r tip, some r) ∧
    markTipFinishedE (.record r) tip = .ok (.record (setFinished r tip), none) ∧
    isTipFinishedE (initStorage .absent) none tip = .ok (false, some []) ∧
    isTipFinishedE .absent none tip = .error () ∧
    isTipFinishedE .corrupt none tip = .error () ∧
    markTipFinishedE .absent tip = .error () ∧
    markTipFinishedE .corrupt tip = .error () := by
  rcases hc with h | h <;>
    simp [isTipFinishedE, markTipFinishedE, initStorage, h, lookupFinished]

/-- C4 amended witness at a concrete record and tip. -/
theorem tips_c4_witness :
    isTipFinishedE (.record [("invite", true)]) none "invite" =
      .ok (lookupFinished [("invite", true)] "invite", some [("invite", true)]) ∧
    markTipFinishedE (.record [("invite", true)]) "invite" =
      .ok (.record (setFinished [("invite", true)] "invite"), none) ∧
    isTipFinishedE (initStorage .absent) none "invite" = .ok (false, some []) ∧
    isTipFinishedE .absent none "invite" = .error () ∧
    isTipFinishedE .corrupt none "invite" = .error () ∧
    markTipFinishedE .absent "invite" = .error () ∧
    markTipFinishedE .corrupt "invite" = .error () :=
  tips_c4_amended [("invite", true)] "invite" none (Or.inl rfl)

/-- C5: dismissing a qualified tip whose bare identifier (index 1 of the
dot-split) is in the locally-dismissible set marks only that identifier
finished, leaving every other tip unchanged; otherwise it marks every tip
of the scope platform catalog finished. -/
theorem tips_c5 (d : Device) (fullTip : String) (scope : Scope) (st : TipsState)
    (r : Record) (bare : String)
    (hs : st.storage = .record r) (hc : st.cache = none ∨ st.cache = some r)
    (hq : (jsSplitDot fullTip).get? 1 = some bare) :
    ∃ st1 r1, handleTipClose d fullTip scope st = .ok st1 ∧ st1.storage = .record r1 ∧
      (bare ∈ LOCAL_CLOSE_TIPS →
        lookupFinished r1 bare = true ∧
        ∀ t, t ≠ bare → lookupFinished r1 t = lookupFinished r t) ∧
      (bare ∉ LOCAL_CLOSE_TIPS →
        ∀ t ∈ scopeList (platformTips d) scope, lookupFinished r1 t = true) := by
  obtain ⟨st1, r1, heq, hs1, _, hlook, _, _, _, _⟩ :=
    handleTipClose_ok d fullTip scope st r hs hc
  refine ⟨st1, r1, heq, hs1, ?_, ?_⟩
  · intro hmem
    have hq2 : (jsSplitDot fullTip)[1]? = some bare := by
      rw [← List.get?_eq_getElem?]
      exact hq
    have hcl : closeList d fullTip scope = [bare] := by
      simp [closeList, hq2, hmem]
    constructor
    · rw [hlook bare, hcl]
      simp
    · intro t ht
      rw [hlook t, hcl]
      have hne : ([bare] : List String).contains t = false := by
        simpa using ht
      rw [hne, Bool.false_or]
  · intro hmem
    have hq2 : (jsSplitDot fullTip)[1]? = some bare := by
      rw [← List.get?_eq_getElem?]
      exact hq
    have hcl : closeList d fullTip scope = scopeList (platformTips d) scope := by
      simp [closeList, hq2, hmem]
    intro t ht
    have hmemt : (scopeList (platformTips d) scope).contains t = true := by
      simpa using ht
    rw [hlook t, hcl, hmemt, Bool.true_or]

/-- C5 witness: dismissing the qualified invite tip in the top scope from
an empty record marks only invite. -/
theorem tips_c5_witness :
    ∃ st1 r1, handleTipClose devDesktop "desktop.invite" .top (initState (.record []))
        = .ok st1 ∧ st1.storage = .record r1 ∧
      ("invite" ∈ LOCAL_CLOSE_TIPS →
        lookupFinished r1 "invite" = true ∧
        ∀ t, t ≠ "invite" → lookupFinished r1 t = lookupFinished [] t) ∧
      ("invite" ∉ LOCAL_CLOSE_TIPS →
        ∀ t ∈ scopeList (platformTips devDesktop) .top, lookupFinished r1 t = true) :=
  tips_c5 devDesktop "desktop.invite" .top (initState (.record [])) [] "invite"
    rfl (Or.inl rfl) (by decide)

/-- C8: whenever the durable activity-flags store handle is absent and the
other preconditions hold (scene frozen, at least one shared object), each
durable-activity-gated validator returns VALID — never FINISH, never a
failure. -/
theorem tips_c8 (m : Bool) (f : Frame)
    (hstore : f.store = none) (hfrozen : f.sceneIs "frozen" = true)
    (hcount : 0 < f.mediaCount) :
    VALIDATORS m "object_rotate_button" f = .VALID ∧
    VALIDATORS m "object_scale_button" f = .VALID ∧
    VALIDATORS m "object_recenter_button" f = .VALID ∧
    VALIDATORS m "object_pin" f = .VALID := by
  have hcz : f.mediaCount ≠ 0 := by omega
  refine ⟨?_, ?_, ?_, ?_⟩ <;> simp [VALIDATORS, hstore, hfrozen, hcz]

/-- C8 witness: a frozen scene with one object and no store handle. -/
theorem tips_c8_witness :
    VALIDATORS false "object_rotate_button" frameFrozenObjects = .VALID ∧
    VALIDATORS false "object_scale_button" frameFrozenObjects = .VALID ∧
    VALIDATORS false "object_recenter_button" frameFrozenObjects = .VALID ∧
    VALIDATORS false "object_pin" frameFrozenObjects = .VALID :=
  tips_c8 false frameFrozenObjects rfl (by decide) (by decide)

/-- C9: each mode-indicator validator purely reflects its scene flag or
capability-set membership — VALID when the flag holds, INVALID when it
does not — and none of them can ever return FINISH. -/
theorem tips_c9 (m : Bool) (f : Frame) :
    VALIDATORS m "pen_mode" f =
      (if f.activeSets.contains "cursorHoldingPen" then .VALID else .INVALID) ∧
    VALIDATORS m "freeze_mode" f = (if f.sceneIs "frozen" then .VALID else .INVALID) ∧
    VALIDATORS m "video_share_mode" f =
      (if f.sceneIs "sharing_video" then .VALID else .INVALID) ∧
    VALIDATORS m "mirror_mode" f = (if f.sceneIs "mirroring" then .VALID else .INVALID) ∧
    VALIDATORS m "mute_mode" f = (if f.sceneIs "muted" then .VALID else .INVALID) ∧
    ∀ tip ∈ ["pen_mode", "freeze_mode", "video_share_mode", "mirror_mode", "mute_mode"],
      VALIDATORS m tip f ≠ ValidationResult.FINISH := by
  refine ⟨?_, ?_, ?_, ?_, ?_, ?_⟩
  · simp only [VALIDATORS]
    by_cases h : f.activeSets.contains "cursorHoldingPen" <;> simp [h]
  · simp only [VALIDATORS]
  · simp only [VALIDATORS]
  · simp only [VALIDATORS]
  · simp only [VALIDATORS]
  · intro tip htip
    have hlist : tip = "pen_mode" ∨ tip = "freeze_mode" ∨ tip = "video_share_mode" ∨
        tip = "mirror_mode" ∨ tip = "mute_mode" := by simpa using htip
    rcases hlist with rfl | rfl | rfl | rfl | rfl <;>
      · simp only [VALIDATORS]
        split <;> simp

/-- C2: once a tip is recorded finished, a completed tick keeps it
finished and never selects it for any scope, and a dismiss operation also
keeps it finished — the finished mark is monotonic under every operation
except the explicit full reset. -/
theorem tips_c2 (d : Device) (f : Frame) (st : TipsState) (r : Record) (t : String)
    (hg : goodState d st) (hr : st.storage = .record r)
    (hfin : lookupFinished r t = true) :
    (∀ (st1 : TipsState) (n : Nat), tick d f st = .ok (st1, n) →
      (∃ r1, st1.storage = .record r1 ∧ lookupFinished r1 t = true) ∧
      ∀ s, selOf st1 s ≠ some (some (qualify d t))) ∧
    (∀ (fullTip : String) (scope : Scope) (st1 : TipsState),
      handleTipClose d fullTip scope st = .ok st1 →
      ∃ r1, st1.storage = .record r1 ∧ lookupFinished r1 t = true) := by
  constructor
  · intro st1 n heq
    obtain ⟨st2, r2, heq2, _, hs2, hext2, hsels⟩ := tick_master d f st r hg hr
    have hpair := Except.ok.inj (heq.symm.trans heq2)
    have hst : st1 = st2 := congrArg Prod.fst hpair
    subst hst
    refine ⟨⟨r2, hs2, hext2 t hfin⟩, ?_⟩
    intro s
    rcases hsels s with h | ⟨u, rm, hsel, hu, hext⟩
    · rw [h]
      simp
    · rw [hsel]
      intro hcon
      have hut : u = t := qualify_inj d u t (Option.some.inj (Option.some.inj hcon))
      have hfu : lookupFinished r u = true := by
        rw [hut]
        exact hfin
      rw [hext u hfu] at hu
      exact Bool.noConfusion hu
  · intro fullTip scope st1 heq
    obtain ⟨r0, hs0, hc0, _⟩ := hg
    have hrr : r0 = r := by
      rw [hr] at hs0
      exact (StoredValue.record.injEq r0 r).mp hs0.symm
    subst hrr
    obtain ⟨st2, r1, heq2, hs1, _, hlook, _, _, _, _⟩ :=
      handleTipClose_ok d fullTip scope st r0 hs0 hc0
    have hst : st1 = st2 := Except.ok.inj (heq.symm.trans heq2)
    subst hst
    refine ⟨r1, hs1, ?_⟩
    rw [hlook t, hfin, Bool.or_true]

/-- C2 witness: with look already finished in the record, a tick keeps it
finished and never selects it, and dismiss operations keep it finished. -/
theorem tips_c2_witness :
    (∀ (st1 : TipsState) (n : Nat),
      tick devDesktop frameCamMoved (initState (.record [("look", true)])) = .ok (st1, n) →
      (∃ r1, st1.storage = .record r1 ∧ lookupFinished r1 "look" = true) ∧
      ∀ s, selOf st1 s ≠ some (some (qualify devDesktop "look"))) ∧
    (∀ (fullTip : String) (scope : Scope) (st1 : TipsState),
      handleTipClose devDesktop fullTip scope (initState (.record [("look", true)]))
        = .ok st1 →
      ∃ r1, st1.storage = .record r1 ∧ lookupFinished r1 "look" = true) :=
  tips_c2 devDesktop frameCamMoved (initState (.record [("look", true)]))
    [("look", true)] "look"
    ⟨[("look", true)], rfl, Or.inl rfl,
      fun s h => by cases s <;> exact absurd h (by decide)⟩
    rfl (by decide)

/-- C3: when the scan of a scope reaches a non-finished tip whose validator
returns FINISH (no higher-priority tip was selected before it), the tip is
marked finished, the scan continues, and the selection of that very pass is
still the first eligible tip of the whole catalog — determined by the tips
after the finishing one — so a FINISH verdict never becomes the selection
and never ends the scan. -/
theorem tips_c3 (d : Device) (f : Frame) (scope : Scope) (st : TipsState) (r : Record)
    (pre post : List String) (a : String)
    (hs : st.storage = .record r) (hc : st.cache = none ∨ st.cache = some r)
    (hflag : flagOf st scope = false)
    (hpre : pre.find? (eligible d.isMobile f r) = none)
    (ha1 : lookupFinished r a = false)
    (ha2 : VALIDATORS d.isMobile a f = ValidationResult.FINISH) :
    ∃ st1 r1, performStep d f (pre ++ a :: post) scope st = .ok st1 ∧
      st1.storage = .record r1 ∧ lookupFinished r1 a = true ∧
      selOf st1 scope =
        some (((pre ++ a :: post).find? (eligible d.isMobile f r)).map (qualify d)) ∧
      (pre ++ a :: post).find? (eligible d.isMobile f r) =
        post.find? (eligible d.isMobile f r) := by
  obtain ⟨r2, cache2, fc2, heq, hmark⟩ :=
    scanTips_marks_finish d.isMobile f r a ha2 pre post r st.cache 0 hc (recExt_refl r)
      (fun t h => Or.inl h) hpre
  rw [← hs] at heq
  have hfind : (pre ++ a :: post).find? (eligible d.isMobile f r)
      = post.find? (eligible d.isMobile f r) := by
    rw [find?_append_none _ _ hpre]
    simp [List.find?_cons, eligible_false_of_not_valid
      (show VALIDATORS d.isMobile a f ≠ ValidationResult.VALID by simp [ha2])]
  by_cases hfc : fc2 = (pre ++ a :: post).length
  · refine ⟨setFlag (setSel { st with storage := .record r2, cache := cache2 } scope
        (some (((pre ++ a :: post).find? (eligible d.isMobile f r)).map (qualify d))))
        scope true, r2, ?_, by simp, hmark, by simp, hfind⟩
    simp only [performStep, hflag, Bool.false_eq_true, if_false, performStepCore, heq]
    rw [if_pos hfc]
  · refine ⟨setSel { st with storage := .record r2, cache := cache2 } scope
        (some (((pre ++ a :: post).find? (eligible d.isMobile f r)).map (qualify d))),
      r2, ?_, by simp, hmark, by simp, hfind⟩
    simp only [performStep, hflag, Bool.false_eq_true, if_false, performStepCore, heq]
    rw [if_neg hfc]

/-- C3 witness: desktop bottom order has look before locomotion; with the
camera just moved, look returns FINISH and gets marked, while locomotion
is still selected in the same pass. -/
theorem tips_c3_witness :
    ∃ st1 r1, performStep devDesktop frameCamMoved ([] ++ "look" :: ["locomotion"]) .bottom
        (initState (.record [])) = .ok st1 ∧
      st1.storage = .record r1 ∧ lookupFinished r1 "look" = true ∧
      selOf st1 .bottom = some ((([] ++ "look" :: ["locomotion"]).find?
        (eligible devDesktop.isMobile frameCamMoved [])).map (qualify devDesktop)) ∧
      ([] ++ "look" :: ["locomotion"]).find? (eligible devDesktop.isMobile frameCamMoved [])
        = (["locomotion"] : List String).find? (eligible devDesktop.isMobile frameCamMoved []) :=
  tips_c3 devDesktop frameCamMoved .bottom (initState (.record [])) [] [] ["locomotion"]
    "look" rfl (Or.inl rfl) rfl rfl rfl (by decide)

/-- C6: a completed tick emits the change notification exactly once when
the recomputed activeTips mapping differs from the previous tick
(comparing each scope entry by value), and does not emit at all when both
entries are identical. -/
theorem tips_c6 (d : Device) (f : Frame) (st : TipsState) (r : Record)
    (hg : goodState d st) (hr : st.storage = .record r) :
    ∃ (st1 : TipsState) (n : Nat), tick d f st = .ok (st1, n) ∧
      n = (if st1.atTop = st.atTop ∧ st1.atBottom = st.atBottom then 0 else 1) := by
  obtain ⟨st2, r2, heq, _, _, _, _⟩ := tick_master d f st r hg hr
  refine ⟨st2, _, heq, ?_⟩
  by_cases hch : st2.atTop = st.atTop ∧ st2.atBottom = st.atBottom
  · rw [if_pos hch, if_neg]
    intro hcon
    rcases hcon with h | h
    · exact h hch.1.symm
    · exact h hch.2.symm
  · rw [if_neg hch, if_pos]
    by_cases h1 : st.atTop = st2.atTop
    · exact Or.inr (fun hx => hch ⟨h1.symm, hx.symm⟩)
    · exact Or.inl h1

/-- C6 witness: a first completed tick from a fresh desktop state. -/
theorem tips_c6_witness :
    ∃ (st1 : TipsState) (n : Nat),
      tick devDesktop frameIdle (initState .absent) = .ok (st1, n) ∧
      n = (if st1.atTop = (initState .absent).atTop ∧
            st1.atBottom = (initState .absent).atBottom then 0 else 1) :=
  tips_c6 devDesktop frameIdle (initState .absent) []
    ⟨[], rfl, Or.inl rfl, fun s h => by cases s <;> exact absurd h (by decide)⟩ rfl

/-- C7: the scope-exhaustion flag is a pure optimization.  The invariant
"a set flag means every tip of that scope is finished and the stored
selection is null" holds at init, is preserved by completed ticks, by
dismiss operations and by the full reset (which clears the flags), and
under it the flag-shortcut evaluation computes the same selection as the
full re-walk of the scope catalog. -/
theorem tips_c7 (d : Device) :
    goodState d (initState .absent) ∧
    (∀ r0 : Record, goodState d (initState (.record r0))) ∧
    (∀ (f : Frame) (st st1 : TipsState) (n : Nat),
      goodState d st → tick d f st = .ok (st1, n) → goodState d st1) ∧
    (∀ (fullTip : String) (scope : Scope) (st st1 : TipsState),
      goodState d st → handleTipClose d fullTip scope st = .ok st1 → goodState d st1) ∧
    (∀ st : TipsState, goodState d (resetTips st)) ∧
    (∀ (f : Frame) (scope : Scope) (st : TipsState), goodState d st →
      ∃ st1 st2,
        performStep d f (scopeList (platformTips d) scope) scope st = .ok st1 ∧
        performStepFullWalk d f (scopeList (platformTips d) scope) scope st = .ok st2 ∧
        selOf st1 scope = selOf st2 scope) := by
  refine ⟨?_, ?_, ?_, ?_, ?_, ?_⟩
  · exact ⟨[], rfl, Or.inl rfl, fun s h => by cases s <;> simp [initState, flagOf] at h⟩
  · intro r0
    exact ⟨r0, rfl, Or.inl rfl, fun s h => by cases s <;> simp [initState, flagOf] at h⟩
  · intro f st st1 n hg heq
    have hgg := hg
    obtain ⟨r, hsr, _, _⟩ := hgg
    obtain ⟨st2, r2, heq2, hg2, _, _, _⟩ := tick_master d f st r hg hsr
    have hst : st1 = st2 := congrArg Prod.fst (Except.ok.inj (heq.symm.trans heq2))
    rw [hst]
    exact hg2
  · intro fullTip scope st st1 hg heq
    obtain ⟨r, hsr, hcr, hflags⟩ := hg
    obtain ⟨st2, r1, heq2, hs1, hc1, hlook, hft, hfb, hat, hab⟩ :=
      handleTipClose_ok d fullTip scope st r hsr hcr
    have hst : st1 = st2 := Except.ok.inj (heq.symm.trans heq2)
    subst hst
    have hflag_eq : ∀ s, flagOf st1 s = flagOf st s := by
      intro s
      cases s
      · exact hft
      · exact hfb
    have hsel_eq : ∀ s, selOf st1 s = selOf st s := by
      intro s
      cases s
      · exact hat
      · exact hab
    refine ⟨r1, hs1, hc1, ?_⟩
    intro s hf
    rw [hflag_eq s] at hf
    obtain ⟨hall, hsel⟩ := hflags s hf
    refine ⟨fun t ht => ?_, ?_⟩
    · rw [hlook t, hall t ht, Bool.or_true]
    · rw [hsel_eq s, hsel]
  · intro st
    exact ⟨[], rfl, Or.inl rfl, fun s h => by cases s <;> simp [resetTips, flagOf] at h⟩
  · intro f scope st hg
    obtain ⟨r, hsr, hcr, hflags⟩ := hg
    obtain ⟨st2, r2, heq2, _, _, _, _, hsel2, _, _, _⟩ :=
      performStepCore_ok d f (scopeList (platformTips d) scope) scope st r hsr hcr
    by_cases hf : flagOf st scope = true
    · obtain ⟨hall, hsel⟩ := hflags scope hf
      refine ⟨st, st2, by simp [performStep, hf], heq2, ?_⟩
      rw [hsel, hsel2, find?_eligible_none_of_all_finished hall]
      rfl
    · have hf' : flagOf st scope = false := by simpa using hf
      refine ⟨st2, st2, ?_, heq2, rfl⟩
      simpa [performStep, hf'] using heq2

/-- C7 witness: on a fresh desktop state, the flagged evaluation and the
full re-walk of the top catalog agree on the selection. -/
theorem tips_c7_witness :
    ∃ st1 st2,
      performStep devDesktop frameIdle (scopeList (platformTips devDesktop) .top) .top
        (initState .absent) = .ok st1 ∧
      performStepFullWalk devDesktop frameIdle (scopeList (platformTips devDesktop) .top) .top
        (initState .absent) = .ok st2 ∧
      selOf st1 .top = selOf st2 .top :=
  (tips_c7 devDesktop).2.2.2.2.2 frameIdle .top (initState .absent)
    ((tips_c7 devDesktop).1)

/-- C10: on the standalone platform (empty catalogs for both scopes), the
very first completed tick sets both exhaustion flags even though no tip
was ever finished, stores the null selection for both scopes, every later
completed tick leaves that state untouched (and emits nothing), and the
full reset clears both flags again. -/
theorem tips_c10 (d : Device) (hd : d.isMobileVR = true) (f f2 : Frame) (st : TipsState)
    (hft : st.fsTop = false) (hfb : st.fsBottom = false) :
    tick d f st = .ok ({ st with
        fsTop := true, fsBottom := true, atTop := some none, atBottom := some none },
      if st.atTop ≠ some none ∨ st.atBottom ≠ some none then 1 else 0) ∧
    tick d f2 { st with
        fsTop := true, fsBottom := true, atTop := some none, atBottom := some none }
      = .ok ({ st with
          fsTop := true, fsBottom := true, atTop := some none, atBottom := some none }, 0) ∧
    (resetTips { st with
        fsTop := true, fsBottom := true, atTop := some none, atBottom := some none }).fsTop
      = false ∧
    (resetTips { st with
        fsTop := true, fsBottom := true, atTop := some none, atBottom := some none }).fsBottom
      = false := by
  have hp : platformTips d = { top := [], bottom := [] } := by
    simp [platformTips, tipPlatform, hd, TIPS]
  refine ⟨?_, ?_, rfl, rfl⟩
  · simp [tick, hp, performStep, performStepCore, scanTips, flagOf, hft, hfb, setSel, setFlag]
  · simp [tick, hp, performStep, flagOf]

/-- C10 witness: the standalone device from a fresh state. -/
theorem tips_c10_witness :
    tick devStandalone frameIdle (initState .absent) = .ok ({ initState .absent with
        fsTop := true, fsBottom := true, atTop := some none, atBottom := some none },
      if (initState .absent).atTop ≠ some none ∨ (initState .absent).atBottom ≠ some none
        then 1 else 0) ∧
    tick devStandalone frameCamMoved { initState .absent with
        fsTop := true, fsBottom := true, atTop := some none, atBottom := some none }
      = .ok ({ initState .absent with
          fsTop := true, fsBottom := true, atTop := some none, atBottom := some none }, 0) ∧
    (resetTips { initState .absent with
        fsTop := true, fsBottom := true, atTop := some none, atBottom := some none }).fsTop
      = false ∧
    (resetTips { initState .absent with
        fsTop := true, fsBottom := true, atTop := some none, atBottom := some none }).fsBottom
      = false :=
  tips_c10 devStandalone rfl frameIdle frameCamMoved (initState .absent) rfl rfl

end Tips

